import Mathlib

/-!
Shallow embedding of `operative`'s sandbox server
(`pkg/sandbox/docker/image/server.py`, class `SandboxServicer`) and proofs
about its session protocol: the pending-prompt correlation table, the
output tee-streaming of `_handle_run_cell`, and the `RunStream` drain loop.

Python state is modelled explicitly: the `pending_prompts` dict becomes an
association list keyed by the request-id string, `response_queue` becomes a
list of `ServerMessage`s (enqueue = append), and each blocking operation is
split at its suspension point into the step before the wait and the step
after it.  `threading.Event` is modelled by the `eventSet` flag: `wait()`
returns exactly when the flag is true, `set()` makes it true.
-/

set_option maxHeartbeats 1000000

namespace Operative

/-- One entry of `pending_prompts`: the Python dict
`{"event": threading.Event(), "response": None}` (server.py line 40).
`eventSet` is the state of the `threading.Event`; `response` is the slot
filled in by `_handle_prompt_response`. -/
structure PendingEntry where
  eventSet : Bool
  response : Option String
deriving Repr, DecidableEq

/-- The `sandbox_pb2.ServerMessage` oneof, with exactly the payloads the
server constructs: `prompt_model` (line 43), `prompt_self` (line 56),
`output` (line 118) and `run_cell_result` (line 168). -/
inductive ServerMessage where
  | promptModel (prompt : String) (id : String)
  | promptSelf (message : String)
  | output (text : String) ( is_stderr : Bool)
  | runCellResult (output : String) (stdout : String) (stderr : String) (success : Bool)
deriving Repr, DecidableEq

/-- Lookup in the `pending_prompts` dict (`resp.id in self.pending_prompts`). -/
def alookup (l : List (String × PendingEntry)) (k : String) : Option PendingEntry :=
  match l with
  | [] => none
  | (k1, v) :: rest => if k1 = k then some v else alookup rest k

/-- Dict item assignment `d[k] = v`: overwrite if the key is present,
otherwise append in insertion order. -/
def aset (l : List (String × PendingEntry)) (k : String) (v : PendingEntry) :
    List (String × PendingEntry) :=
  match l with
  | [] => [(k, v)]
  | (k1, v1) :: rest => if k1 = k then (k, v) :: rest else (k1, v1) :: aset rest k v

/-- Dict `d.pop(k)`: return the stored value (if any) and the list with that
entry removed. -/
def apop (l : List (String × PendingEntry)) (k : String) :
    Option PendingEntry × List (String × PendingEntry) :=
  match l with
  | [] => (none, [])
  | (k1, v) :: rest =>
    if k1 = k then (some v, rest)
    else
      let r := apop rest k
      (r.1, (k1, v) :: r.2)

/-- The body of `_handle_prompt_response` on the table (lines 106-109): if
the id is present, store the response and set the event; otherwise do
nothing.  Setting the fields yields the entry `⟨true, some v⟩` whatever the
entry held before. -/
def aresolve (l : List (String × PendingEntry)) (k v : String) :
    List (String × PendingEntry) :=
  match alookup l k with
  | some _ => l.map (fun kv => if kv.1 = k then (kv.1, ⟨true, some v⟩) else kv)
  | none => l

/-- The mutable fields of `SandboxServicer` that the correlation protocol
touches: `pending_prompts` and `response_queue`. -/
structure ServicerState where
  pending_prompts : List (String × PendingEntry)
  response_queue : List ServerMessage
deriving Repr, DecidableEq

/-- First half of `prompt_model` (lines 36-45), up to `event.wait()`: a
fresh uuid `req_id` has been drawn, the pending entry is registered with an
unset event and empty response slot, and the ask-request message carrying
`req_id` and the prompt is enqueued. -/
def prompt_model_register (s : ServicerState) (req_id prompt : String) : ServicerState :=
  { pending_prompts := aset s.pending_prompts req_id ⟨false, none⟩,
    response_queue := s.response_queue ++ [ServerMessage.promptModel prompt req_id] }

/-- Second half of `prompt_model` (lines 50-52), after `event.wait()`
returns: pop the entry and return its `response` field to the executing
code.  (`dict.pop` on a missing key would raise; a real waiter only reaches
this point for an id it registered itself.) -/
def prompt_model_consume (s : ServicerState) (req_id : String) :
    ServicerState × Option String :=
  match apop s.pending_prompts req_id with
  | (some e, rest) => ({ s with pending_prompts := rest }, e.response)
  | (none, _) => (s, none)

/-- `_handle_prompt_response` (lines 104-109) on the servicer state: only
the table is touched; nothing is enqueued and no exception escapes. -/
def handle_prompt_response (s : ServicerState) (id v : String) : ServicerState :=
  { s with pending_prompts := aresolve s.pending_prompts id v }

/-- `prompt_self` (lines 54-58): fire-and-forget notice enqueue. -/
def prompt_self (s : ServicerState) (message : String) : ServicerState :=
  { s with response_queue := s.response_queue ++ [ServerMessage.promptSelf message] }

/-- Interleaved activity of the other threads of one session while one
`prompt_model` call is blocked: further asks (with their own uuid draw),
inbound answer deliveries, other waiters consuming their answers, and
arbitrary enqueues from running cells. -/
inductive SAction where
  | register (id prompt : String)
  | resolve (id value : String)
  | consume (id : String)
  | enqueue (m : ServerMessage)
deriving Repr, DecidableEq

/-- Whether an action reads or writes the table entry of the given id. -/
def touches (a : SAction) (id : String) : Bool :=
  match a with
  | .register i _ => i = id
  | .resolve i _ => i = id
  | .consume i => i = id
  | .enqueue _ => false

/-- Effect of one interleaved action on the servicer state. -/
def sstep (s : ServicerState) : SAction → ServicerState
  | .register id p => prompt_model_register s id p
  | .resolve id v => handle_prompt_response s id v
  | .consume id => (prompt_model_consume s id).1
  | .enqueue m => { s with response_queue := s.response_queue ++ [m] }

/-- Run a sequence of interleaved actions. -/
def srun (s : ServicerState) (as : List SAction) : ServicerState :=
  as.foldl sstep s

/-! ## Output streaming (`OutputStream`, `TeeStream`, `_handle_run_cell`) -/

/-- One write performed by the engine during a cell run, as it reaches the
redirected `sys.stdout` (tag false) or `sys.stderr` (tag true). -/
structure Fragment where
  text : String
  is_stderr : Bool
deriving Repr, DecidableEq

/-- `OutputStream.write` (lines 116-121): enqueue an output message when
the written string is truthy (non-empty), and return `len(s)` either way. -/
def OutputStream_write (q : List ServerMessage) (tag : Bool) (s : String) :
    List ServerMessage × Nat :=
  (if s = "" then q else q ++ [ServerMessage.output s tag], s.length)

/-- `TeeStream.write` (lines 149-152) with stream1 an `OutputStream` over
the response queue and stream2 the run's local `StringIO` buffer: write to
both, return `len(s)`. -/
def TeeStream_write (q : List ServerMessage) (buf : String) (tag : Bool) (s : String) :
    (List ServerMessage × String) × Nat :=
  (((OutputStream_write q tag s).1, buf ++ s), s.length)

/-- The engine's writes during `ipy.run_cell` plus, when the invocation
call itself raises, the exception text `str(e)` caught at line 163. -/
structure CellRun where
  writes : List Fragment
  invocationError : Option String
deriving Repr, DecidableEq

/-- Replay the run's writes through the two tees: the queue is shared, the
stdout-tagged writes accumulate in `captured_stdout` and the stderr-tagged
ones in `captured_stderr` (lines 142-158). -/
def processWrites (q : List ServerMessage) (bufOut bufErr : String) :
    List Fragment → List ServerMessage × String × String
  | [] => (q, bufOut, bufErr)
  | f :: fs =>
    if f.is_stderr then
      processWrites (TeeStream_write q bufErr true f.text).1.1 bufOut
        (TeeStream_write q bufErr true f.text).1.2 fs
    else
      processWrites (TeeStream_write q bufOut false f.text).1.1
        (TeeStream_write q bufOut false f.text).1.2 bufErr fs

/-- `_handle_run_cell` (lines 126-175) for a run executing in isolation:
replay the writes, on an invocation failure write `str(e)` through the
stderr tee, then enqueue the single `run_cell_result` with
`output = captured_stdout + captured_stderr` and `success=True`. -/
def handle_run_cell (q : List ServerMessage) (run : CellRun) : List ServerMessage :=
  match processWrites q "" "" run.writes with
  | (q1, so, se) =>
    match run.invocationError with
    | some e =>
      match TeeStream_write q1 se true e with
      | ((q2, se2), _) =>
        q2 ++ [ServerMessage.runCellResult (so ++ se2) so se2 true]
    | none => q1 ++ [ServerMessage.runCellResult (so ++ se) so se true]

/-- Concatenation of the stdout-tagged fragment texts, in program order. -/
def stdoutText : List Fragment → String
  | [] => ""
  | f :: fs => (if f.is_stderr then "" else f.text) ++ stdoutText fs

/-- Concatenation of the stderr-tagged fragment texts, in program order. -/
def stderrText : List Fragment → String
  | [] => ""
  | f :: fs => (if f.is_stderr then f.text else "") ++ stderrText fs

/-- Concatenation of all fragment texts in arrival order (the
interleaving of the two streams). -/
def interleavedText : List Fragment → String
  | [] => ""
  | f :: fs => f.text ++ interleavedText fs

/-- The output messages a run's writes push onto the queue: one per
non-empty fragment, in program order. -/
def fragMsgs : List Fragment → List ServerMessage
  | [] => []
  | f :: fs =>
    (if f.text = "" then [] else [ServerMessage.output f.text f.is_stderr]) ++ fragMsgs fs

/-- Number of `run_cell_result` messages in a queue. -/
def countResults : List ServerMessage → Nat
  | [] => 0
  | ServerMessage.runCellResult _ _ _ _ :: ms => countResults ms + 1
  | _ :: ms => countResults ms

/-- Final `stdout` field of the result message of a run. -/
def finalStdout (run : CellRun) : String := stdoutText run.writes

/-- Final `stderr` field of the result message of a run: the stderr
accumulation, with the invocation-failure text appended when the engine
call raised. -/
def finalStderr (run : CellRun) : String :=
  stderrText run.writes ++
    (match run.invocationError with
     | some e => e
     | none => "")

/-! ## The `RunStream` drain loop (lines 60-84) -/

/-- Interleaving of producers enqueuing onto the stream queue and the
drain loop taking its next message. -/
inductive QAction where
  | enqueue (m : ServerMessage)
  | drainOne
deriving Repr, DecidableEq

/-- Drain-loop state: the messages already yielded to the gRPC stream, and
the queue contents. -/
structure DrainState where
  transmitted : List ServerMessage
  q : List ServerMessage
deriving Repr, DecidableEq

/-- One interleaving step: an enqueue appends to the queue; a drain
iteration runs `msg = q.get(timeout=1.0); yield msg`, and on an empty
queue (`queue.Empty`) yields nothing and loops. -/
def qstep (s : DrainState) : QAction → DrainState
  | .enqueue m => { s with q := s.q ++ [m] }
  | .drainOne =>
    match s.q with
    | [] => s
    | m :: rest => { transmitted := s.transmitted ++ [m], q := rest }

/-- Run an interleaving from an empty stream. -/
def qrun (as : List QAction) : DrainState :=
  as.foldl qstep ⟨[], []⟩

/-- The messages enqueued by an interleaving, in enqueue order. -/
def enqueuedOf : List QAction → List ServerMessage
  | [] => []
  | .enqueue m :: as => m :: enqueuedOf as
  | .drainOne :: as => enqueuedOf as

/-! ## Correlation-table lifecycle with the uuid supply (for the table
invariant).  `uuid.uuid4()` (line 36) is modelled as a deterministic supply
of pairwise-distinct opaque tokens, one per draw; the state carries the
ghost list `issued` of every id ever drawn, so freshness ("never reused")
is a provable statement about the supply rather than a probabilistic fact
about random 128-bit tokens. -/

/-- The n-th token of the uuid supply.  Tokens of different draws differ
(they have different lengths). -/
def mkUuid (n : Nat) : String := String.mk (List.replicate (n + 1) 'u')

/-- Correlation-machine state: the servicer fields plus the position of
the uuid supply and the ghost history of issued ids. -/
structure CState where
  pending_prompts : List (String × PendingEntry)
  response_queue : List ServerMessage
  counter : Nat
  issued : List String
deriving Repr, DecidableEq

/-- Correlation-table events of one session: a `prompt_model` call reaching
its registration (`ask`), an inbound answer delivery (`answer`), and a
blocked waiter waking up and popping its entry (`consume`). -/
inductive CAction where
  | ask (prompt : String)
  | answer (id value : String)
  | consume (id : String)
deriving Repr, DecidableEq

/-- Effect of one correlation event.  `consume` fires only when the entry
exists and its event is set — a real waiter returns from `event.wait()`
exactly then; otherwise the waiter is still blocked and nothing happens. -/
def cstep (s : CState) : CAction → CState
  | .ask p =>
    { pending_prompts := aset s.pending_prompts (mkUuid s.counter) ⟨false, none⟩,
      response_queue :=
        s.response_queue ++ [ServerMessage.promptModel p (mkUuid s.counter)],
      counter := s.counter + 1,
      issued := s.issued ++ [mkUuid s.counter] }
  | .answer id v => { s with pending_prompts := aresolve s.pending_prompts id v }
  | .consume id =>
    match alookup s.pending_prompts id with
    | some e =>
      if e.eventSet then { s with pending_prompts := (apop s.pending_prompts id).2 }
      else s
    | none => s

/-- The initial session state: empty table, empty queue, fresh supply. -/
def cinit : CState := ⟨[], [], 0, []⟩

/-- Run a sequence of correlation events from session start. -/
def crun (as : List CAction) : CState :=
  as.foldl cstep cinit

/-- The keys of the pending table. -/
def pendingKeys (l : List (String × PendingEntry)) : List String :=
  l.map Prod.fst

/-! ## Concurrent runs and the process-global output redirection.
`contextlib.redirect_stdout` (line 160) swaps the single process-global
`sys.stdout`, so when several `_handle_run_cell` threads overlap, a print
executed by one unit's code lands on whichever unit's tee is currently
installed.  The model makes that global register explicit: `none` stands
for the original `sys.stdout` (not captured), `some u` for unit u's tee. -/

/-- The two local `StringIO` accumulation buffers of one run. -/
structure UnitBufs where
  captured_stdout : String
  captured_stderr : String
deriving Repr, DecidableEq

/-- Session-wide state of N overlapping `_handle_run_cell` threads. -/
structure MultiRunState where
  queue : List ServerMessage
  stdoutTarget : Option Nat
  stderrTarget : Option Nat
  bufs : Nat → UnitBufs
  saved : Nat → Option Nat × Option Nat
  results : List (Nat × ServerMessage)

/-- Scheduler events of overlapping runs: unit u installing its
redirection (`redirect_stdout`/`redirect_stderr` enter, saving the previous
targets), restoring it on exit, a write executed by unit u's code (which
lands on the *currently installed* tee, not necessarily unit u's), and
unit u emitting its result from its own local buffers. -/
inductive RunEvent where
  | enter (u : Nat)
  | exitR (u : Nat)
  | wr (u : Nat) (f : Fragment)
  | finish (u : Nat)
deriving Repr, DecidableEq

/-- Effect of one scheduler event. -/
def mstep (s : MultiRunState) : RunEvent → MultiRunState
  | .enter u =>
    { s with
      saved := fun n => if n = u then (s.stdoutTarget, s.stderrTarget) else s.saved n,
      stdoutTarget := some u,
      stderrTarget := some u }
  | .exitR u => { s with stdoutTarget := (s.saved u).1, stderrTarget := (s.saved u).2 }
  | .wr _ f =>
    match if f.is_stderr then s.stderrTarget else s.stdoutTarget with
    | none => s
    | some t =>
      { s with
        queue := (OutputStream_write s.queue f.is_stderr f.text).1,
        bufs := fun n =>
          if n = t then
            if f.is_stderr then
              { s.bufs t with captured_stderr := (s.bufs t).captured_stderr ++ f.text }
            else
              { s.bufs t with captured_stdout := (s.bufs t).captured_stdout ++ f.text }
          else s.bufs n }
  | .finish u =>
    { s with
      queue := s.queue ++
        [ServerMessage.runCellResult
          ((s.bufs u).captured_stdout ++ (s.bufs u).captured_stderr)
          (s.bufs u).captured_stdout (s.bufs u).captured_stderr true],
      results := s.results ++
        [(u, ServerMessage.runCellResult
          ((s.bufs u).captured_stdout ++ (s.bufs u).captured_stderr)
          (s.bufs u).captured_stdout (s.bufs u).captured_stderr true)] }

/-- Initial multi-run state: nothing redirected yet, empty buffers. -/
def minit : MultiRunState :=
  { queue := [], stdoutTarget := none, stderrTarget := none,
    bufs := fun _ => ⟨"", ""⟩, saved := fun _ => (none, none), results := [] }

/-- Run a schedule of overlapping-run events. -/
def mrun (tr : List RunEvent) : MultiRunState :=
  tr.foldl mstep minit

/-- Invariant of the correlation machine: every issued id is distinct
(fresh ids are never reused), the pending table has at most one entry per
id, every pending id was issued by some ask, and every issued id came from
a supply position strictly below the current one. -/
def CInv (s : CState) : Prop :=
  s.issued.Nodup ∧
  (pendingKeys s.pending_prompts).Nodup ∧
  (∀ id, id ∈ pendingKeys s.pending_prompts → id ∈ s.issued) ∧
  (∀ n, mkUuid n ∈ s.issued → n < s.counter)

/-!
# Theorems
-/

/-! ## Association-list lemmas for the `pending_prompts` dict -/

theorem apop_fst (l : List (String × PendingEntry)) (k : String) :
    (apop l k).1 = alookup l k := by
  induction l with
  | nil => rfl
  | cons kv rest ih =>
    simp only [apop, alookup]
    split <;> simp [ih]

theorem alookup_eq_none_iff (l : List (String × PendingEntry)) (k : String) :
    alookup l k = none ↔ ∀ kv ∈ l, kv.1 ≠ k := by
  induction l with
  | nil => simp [alookup]
  | cons kv rest ih =>
    simp only [alookup]
    split
    · simp_all
    · simp_all

theorem aset_fresh (l : List (String × PendingEntry)) (k : String) (v : PendingEntry)
    (h : alookup l k = none) : aset l k v = l ++ [(k, v)] := by
  induction l with
  | nil => rfl
  | cons kv rest ih =>
    match kv with
    | (k1, v1) =>
      simp only [alookup] at h
      by_cases hk : k1 = k
      · simp [hk] at h
      · simp only [aset, if_neg hk]
        rw [ih (by simpa [hk] using h)]
        simp

theorem alookup_aset_self (l : List (String × PendingEntry)) (k : String) (v : PendingEntry) :
    alookup (aset l k v) k = some v := by
  induction l with
  | nil => simp [aset, alookup]
  | cons kv rest ih =>
    simp only [aset]
    split
    · simp [alookup]
    · simp [alookup, *]

theorem alookup_aset_ne (l : List (String × PendingEntry)) (k k1 : String)
    (v : PendingEntry) (h : k1 ≠ k) : alookup (aset l k1 v) k = alookup l k := by
  induction l with
  | nil => simp [aset, alookup, h]
  | cons kv rest ih =>
    simp only [aset]
    split
    · next heq => simp [alookup, heq, h]
    · simp [alookup, ih]

theorem alookup_map_update (l : List (String × PendingEntry)) (k : String) (e : PendingEntry) :
    alookup (l.map (fun kv => if kv.1 = k then (kv.1, e) else kv)) k =
      (alookup l k).map (fun _ => e) := by
  induction l with
  | nil => rfl
  | cons kv rest ih =>
    simp only [List.map_cons]
    by_cases hk : kv.1 = k
    · rw [if_pos hk]
      simp [alookup, hk]
    · rw [if_neg hk]
      simp [alookup, hk, ih]

theorem alookup_map_update_ne (l : List (String × PendingEntry)) (k k1 : String)
    (e : PendingEntry) (h : k1 ≠ k) :
    alookup (l.map (fun kv => if kv.1 = k1 then (kv.1, e) else kv)) k = alookup l k := by
  induction l with
  | nil => rfl
  | cons kv rest ih =>
    simp only [List.map_cons]
    by_cases hk : kv.1 = k1
    · rw [if_pos hk]
      simp only [alookup]
      rw [if_neg (hk ▸ h : ¬kv.1 = k), if_neg (hk ▸ h : ¬kv.1 = k)]
      exact ih
    · rw [if_neg hk]
      simp only [alookup]
      by_cases hk2 : kv.1 = k
      · rw [if_pos hk2, if_pos hk2]
      · rw [if_neg hk2, if_neg hk2]
        exact ih

theorem alookup_aresolve_self (l : List (String × PendingEntry)) (k v : String)
    (e : PendingEntry) (h : alookup l k = some e) :
    alookup (aresolve l k v) k = some ⟨true, some v⟩ := by
  simp [aresolve, h, alookup_map_update]

theorem alookup_aresolve_ne (l : List (String × PendingEntry)) (k k1 v : String)
    (h : k1 ≠ k) : alookup (aresolve l k1 v) k = alookup l k := by
  simp only [aresolve]
  split
  · exact alookup_map_update_ne l k k1 _ h
  · rfl

theorem aresolve_of_none (l : List (String × PendingEntry)) (k v : String)
    (h : alookup l k = none) : aresolve l k v = l := by
  simp [aresolve, h]

theorem apop_snd_ne (l : List (String × PendingEntry)) (k k1 : String) (h : k1 ≠ k) :
    alookup (apop l k1).2 k = alookup l k := by
  induction l with
  | nil => rfl
  | cons kv rest ih =>
    simp only [apop]
    split
    · next heq => simp [alookup, heq, h]
    · simp [alookup, ih]

theorem apop_sublist (l : List (String × PendingEntry)) (k : String) :
    (apop l k).2.Sublist l := by
  induction l with
  | nil => simp [apop]
  | cons kv rest ih =>
    simp only [apop]
    split
    · simp
    · exact List.Sublist.cons₂ kv ih

theorem alookup_apop_self (l : List (String × PendingEntry)) (k : String)
    (h : (pendingKeys l).Nodup) : alookup (apop l k).2 k = none := by
  induction l with
  | nil => rfl
  | cons kv rest ih =>
    simp only [pendingKeys, List.map_cons, List.nodup_cons] at h
    simp only [apop]
    split
    · next heq =>
      rw [alookup_eq_none_iff]
      intro kw hw hwk
      exact h.1 (heq ▸ hwk ▸ List.mem_map_of_mem Prod.fst hw)
    · next hne =>
      simpa [alookup, hne] using ih h.2

/-! ## Replay lemmas for `_handle_run_cell` -/

theorem processWrites_spec (fs : List Fragment) :
    ∀ (q : List ServerMessage) (bo be : String),
      processWrites q bo be fs = (q ++ fragMsgs fs, bo ++ stdoutText fs, be ++ stderrText fs) := by
  induction fs with
  | nil =>
    intro q bo be
    simp [processWrites, fragMsgs, stdoutText, stderrText, String.append_empty]
  | cons f fs ih =>
    intro q bo be
    cases hferr : f.is_stderr with
    | true =>
      simp only [processWrites, hferr, if_true, TeeStream_write, OutputStream_write, ih,
        fragMsgs, stdoutText, stderrText, Prod.mk.injEq]
      refine ⟨by split <;> simp, by simp [String.empty_append], by rw [String.append_assoc]⟩
    | false =>
      simp only [processWrites, hferr, Bool.false_eq_true, if_false, TeeStream_write,
        OutputStream_write, ih, fragMsgs, stdoutText, stderrText, Prod.mk.injEq]
      refine ⟨by split <;> simp, by rw [String.append_assoc], by simp [String.empty_append]⟩

theorem handle_run_cell_eq (q : List ServerMessage) (run : CellRun) :
    handle_run_cell q run =
      q ++ fragMsgs run.writes ++
        (match run.invocationError with
         | some e => if e = "" then [] else [ServerMessage.output e true]
         | none => []) ++
        [ServerMessage.runCellResult (finalStdout run ++ finalStderr run)
          (finalStdout run) (finalStderr run) true] := by
  cases hc : run.invocationError with
  | none =>
    simp [handle_run_cell, processWrites_spec, hc, finalStdout, finalStderr,
      String.empty_append, String.append_empty]
  | some e =>
    simp only [handle_run_cell, processWrites_spec, hc, TeeStream_write, OutputStream_write,
      finalStdout, finalStderr, String.empty_append]
    by_cases he : e = "" <;> simp [he, List.append_assoc]

theorem countResults_append (a b : List ServerMessage) :
    countResults (a ++ b) = countResults a + countResults b := by
  induction a with
  | nil => simp [countResults]
  | cons m ms ih =>
    cases m with
    | promptModel p i => simp [countResults, ih]
    | promptSelf msg => simp [countResults, ih]
    | output t tg => simp [countResults, ih]
    | runCellResult o so se su =>
      simp only [List.cons_append, countResults, List.append_eq, ih]
      omega

theorem countResults_fragMsgs (fs : List Fragment) : countResults (fragMsgs fs) = 0 := by
  induction fs with
  | nil => rfl
  | cons f fs ih =>
    simp only [fragMsgs]
    split <;> simp [countResults_append, countResults, ih]

/-! ## Drain-loop lemma -/

theorem qrun_go (as : List QAction) :
    ∀ s : DrainState,
      (as.foldl qstep s).transmitted ++ (as.foldl qstep s).q =
        s.transmitted ++ (s.q ++ enqueuedOf as) := by
  induction as with
  | nil =>
    intro s
    simp [enqueuedOf]
  | cons a as ih =>
    intro s
    cases a with
    | enqueue m =>
      simp [List.foldl_cons, qstep, enqueuedOf, ih]
    | drainOne =>
      cases hq : s.q with
      | nil =>
        simp only [List.foldl_cons]
        rw [show qstep s QAction.drainOne = s by simp [qstep, hq]]
        simp [enqueuedOf, ih, hq]
      | cons m rest =>
        simp only [List.foldl_cons]
        rw [show qstep s QAction.drainOne = ⟨s.transmitted ++ [m], rest⟩ by simp [qstep, hq]]
        simp [enqueuedOf, ih, hq]

/-! ## Correlation lemmas: interference-freedom and consumption -/

theorem alookup_append_fresh (l : List (String × PendingEntry)) (id : String)
    (e : PendingEntry) (h : alookup l id = none) : alookup (l ++ [(id, e)]) id = some e := by
  induction l with
  | nil => simp [alookup]
  | cons kv rest ih =>
    simp only [alookup] at h
    by_cases hk : kv.1 = id
    · rw [if_pos hk] at h
      exact absurd h (by simp)
    · rw [if_neg hk] at h
      rcases kv with ⟨k1, v1⟩
      simpa [alookup, hk] using ih h

theorem map_update_of_absent (l : List (String × PendingEntry)) (id : String)
    (e : PendingEntry) (h : ∀ kv ∈ l, kv.1 ≠ id) :
    l.map (fun kv => if kv.1 = id then (kv.1, e) else kv) = l := by
  rw [List.map_congr_left (g := fun kv => kv) (fun kv hkv => by simp [h kv hkv])]
  simp

theorem aresolve_append_fresh (l : List (String × PendingEntry)) (id v : String)
    (e : PendingEntry) (h : alookup l id = none) :
    aresolve (l ++ [(id, e)]) id v = l ++ [(id, ⟨true, some v⟩)] := by
  simp only [aresolve, alookup_append_fresh l id e h]
  rw [List.map_append, map_update_of_absent l id _ ((alookup_eq_none_iff l id).mp h)]
  simp

theorem apop_append_fresh (l : List (String × PendingEntry)) (id : String)
    (e : PendingEntry) (h : alookup l id = none) : apop (l ++ [(id, e)]) id = (some e, l) := by
  induction l with
  | nil => simp [apop]
  | cons kv rest ih =>
    simp only [alookup] at h
    by_cases hk : kv.1 = id
    · rw [if_pos hk] at h
      exact absurd h (by simp)
    · rw [if_neg hk] at h
      rcases kv with ⟨k1, v1⟩
      simp [List.cons_append, apop, if_neg hk, ih h]

theorem consume_eq_of_apop (s : ServicerState) (id : String) (e : PendingEntry)
    (rest : List (String × PendingEntry)) (h : apop s.pending_prompts id = (some e, rest)) :
    prompt_model_consume s id = ({ s with pending_prompts := rest }, e.response) := by
  unfold prompt_model_consume
  rw [h]

theorem consume_preserves_other (s : ServicerState) (i id : String) (h : i ≠ id) :
    alookup ((prompt_model_consume s i).1).pending_prompts id = alookup s.pending_prompts id := by
  have hsnd := apop_snd_ne s.pending_prompts id i h
  unfold prompt_model_consume
  rcases hap : apop s.pending_prompts i with ⟨o, rest⟩
  rw [hap] at hsnd
  cases o with
  | some e => simpa using hsnd
  | none => simp

theorem consume_returns_response (s : ServicerState) (id : String) (e : PendingEntry)
    (h : alookup s.pending_prompts id = some e) :
    (prompt_model_consume s id).2 = e.response := by
  have hfst := apop_fst s.pending_prompts id
  rw [h] at hfst
  unfold prompt_model_consume
  rcases hap : apop s.pending_prompts id with ⟨o, rest⟩
  rw [hap] at hfst
  cases o with
  | some e2 =>
    have he : e2 = e := by
      simpa using hfst
    simp [he]
  | none => simp at hfst

theorem sstep_preserves_untouched (s : ServicerState) (a : SAction) (id : String)
    (h : touches a id = false) :
    alookup (sstep s a).pending_prompts id = alookup s.pending_prompts id := by
  cases a with
  | register i p =>
    have hne : i ≠ id := by simpa [touches] using h
    simp [sstep, prompt_model_register, alookup_aset_ne _ _ _ _ hne]
  | resolve i v =>
    have hne : i ≠ id := by simpa [touches] using h
    simp [sstep, handle_prompt_response, alookup_aresolve_ne _ _ _ _ hne]
  | consume i =>
    have hne : i ≠ id := by simpa [touches] using h
    simpa [sstep] using consume_preserves_other s i id hne
  | enqueue m => simp [sstep]

theorem srun_resolved_stable (id v : String) :
    ∀ (as : List SAction) (s : ServicerState),
      alookup s.pending_prompts id = some ⟨true, some v⟩ →
      (∀ a ∈ as, touches a id = true → a = SAction.resolve id v) →
      alookup (srun s as).pending_prompts id = some ⟨true, some v⟩ := by
  intro as
  induction as with
  | nil =>
    intro s h _
    simpa [srun] using h
  | cons a as ih =>
    intro s h hother
    have hstep : alookup (sstep s a).pending_prompts id = some ⟨true, some v⟩ := by
      by_cases ht : touches a id = true
      · have ha := hother a (List.mem_cons_self a as) ht
        subst ha
        simpa [sstep, handle_prompt_response] using alookup_aresolve_self _ _ _ _ h
      · rw [sstep_preserves_untouched s a id (by simpa using ht)]
        exact h
    exact ih (sstep s a) hstep (fun b hb hbt => hother b (List.mem_cons_of_mem a hb) hbt)

theorem srun_pending_resolve (id v : String) :
    ∀ (as : List SAction) (s : ServicerState),
      alookup s.pending_prompts id = some ⟨false, none⟩ →
      SAction.resolve id v ∈ as →
      (∀ a ∈ as, touches a id = true → a = SAction.resolve id v) →
      alookup (srun s as).pending_prompts id = some ⟨true, some v⟩ := by
  intro as
  induction as with
  | nil =>
    intro s _ hmem _
    simp at hmem
  | cons a as ih =>
    intro s h hmem hother
    by_cases ha : a = SAction.resolve id v
    · subst ha
      have hstep : alookup (sstep s (SAction.resolve id v)).pending_prompts id
          = some ⟨true, some v⟩ := by
        simpa [sstep, handle_prompt_response] using alookup_aresolve_self _ _ _ _ h
      exact srun_resolved_stable id v as (sstep s _) hstep
        (fun b hb hbt => hother b (List.mem_cons_of_mem _ hb) hbt)
    · have ht : touches a id = false := by
        by_contra hc
        exact ha (hother a (List.mem_cons_self a as) (by simpa using hc))
      have hmem2 : SAction.resolve id v ∈ as := by
        rcases List.mem_cons.mp hmem with h1 | h1
        · exact (ha h1.symm).elim
        · exact h1
      exact ih (sstep s a)
        ((sstep_preserves_untouched s a id ht).trans h) hmem2
        (fun b hb hbt => hother b (List.mem_cons_of_mem a hb) hbt)

/-! ## Claim theorems -/

/-- C10: `OutputStream.write` enqueues one output message exactly when the
written string is non-empty, and always returns `len(s)`; in particular
writing `""` enqueues nothing and returns 0 (the `if s = ""` branch of the
equation, with `"".length = 0`). -/
theorem OutputStream_write_spec (q : List ServerMessage) (tag : Bool) (s : String) :
    OutputStream_write q tag s =
      ((if s = "" then q else q ++ [ServerMessage.output s tag]), s.length) ∧
    ((OutputStream_write q tag s).1 ≠ q ↔ s ≠ "") := by
  refine ⟨rfl, ?_, ?_⟩
  · intro h hs
    exact h (by simp [OutputStream_write, hs])
  · intro hs h
    have h2 : q ++ [ServerMessage.output s tag] = q := by
      simp only [OutputStream_write, if_neg hs] at h
      exact h
    have hlen := congrArg List.length h2
    simp at hlen

/-- C10 witness: writing "hi" to an empty queue enqueues exactly one
stdout-tagged output message and returns 2. -/
theorem OutputStream_write_spec_witness :
    OutputStream_write [] false "hi" =
      ((if ("hi" : String) = "" then [] else [] ++ [ServerMessage.output "hi" false]),
        ("hi" : String).length) ∧
    ((OutputStream_write [] false "hi").1 ≠ [] ↔ ("hi" : String) ≠ "") :=
  OutputStream_write_spec [] false "hi"

/-- C3: delivering an answer whose id is not in the correlation table is a
silent no-op: `_handle_prompt_response` leaves the whole servicer state
(table and outbound queue) unchanged, and — being a total function in this
embedding, mirroring the code's `if resp.id in self.pending_prompts` guard
with no else branch — raises nothing. -/
theorem resolve_unknown_id_noop (s : ServicerState) (id v : String)
    (h : alookup s.pending_prompts id = none) :
    handle_prompt_response s id v = s := by
  simp [handle_prompt_response, aresolve_of_none _ _ _ h]

/-- C3 witness: resolving id "z" on an empty table changes nothing. -/
theorem resolve_unknown_id_noop_witness :
    alookup (⟨[], []⟩ : ServicerState).pending_prompts "z" = none ∧
    handle_prompt_response ⟨[], []⟩ "z" "v" = (⟨[], []⟩ : ServicerState) :=
  ⟨rfl, resolve_unknown_id_noop ⟨[], []⟩ "z" "v" rfl⟩

/-- C8: the drain loop is FIFO.  For every interleaving of enqueues and
drain iterations, the messages yielded so far followed by the messages
still queued are exactly the enqueued messages in enqueue order: nothing
is reordered, batched, dropped or duplicated while the stream is active. -/
theorem drain_fifo (as : List QAction) :
    (qrun as).transmitted ++ (qrun as).q = enqueuedOf as := by
  simpa using qrun_go as ⟨[], []⟩

/-- C4: a run that completes without an invocation failure appends to the
queue exactly its own non-empty output fragments, in program order,
followed by a single `run_cell_result` whose accumulated fields are the
concatenation of all stdout-tagged and all stderr-tagged fragment texts;
the result count of the queue grows by exactly one. -/
theorem run_cell_result_spec (q : List ServerMessage) (run : CellRun)
    (hc : run.invocationError = none) :
    handle_run_cell q run =
      q ++ fragMsgs run.writes ++
        [ServerMessage.runCellResult (stdoutText run.writes ++ stderrText run.writes)
          (stdoutText run.writes) (stderrText run.writes) true] ∧
    countResults (handle_run_cell q run) = countResults q + 1 := by
  have h := handle_run_cell_eq q run
  rw [hc] at h
  simp only [finalStdout, finalStderr, hc, String.append_empty] at h
  refine ⟨by simpa using h, ?_⟩
  rw [show handle_run_cell q run =
    q ++ fragMsgs run.writes ++
      [ServerMessage.runCellResult (stdoutText run.writes ++ stderrText run.writes)
        (stdoutText run.writes) (stderrText run.writes) true] from by simpa using h]
  simp [countResults_append, countResults_fragMsgs, countResults]

/-- C4 witness: a run emitting a single stdout fragment "4\n" streams that
fragment and then exactly one result accumulating it. -/
theorem run_cell_result_spec_witness :
    handle_run_cell [] ⟨[⟨"4\n", false⟩], none⟩ =
      [] ++ fragMsgs [⟨"4\n", false⟩] ++
        [ServerMessage.runCellResult (stdoutText [⟨"4\n", false⟩] ++ stderrText [⟨"4\n", false⟩])
          (stdoutText [⟨"4\n", false⟩]) (stderrText [⟨"4\n", false⟩]) true] ∧
    countResults (handle_run_cell [] ⟨[⟨"4\n", false⟩], none⟩) = countResults [] + 1 :=
  run_cell_result_spec [] ⟨[⟨"4\n", false⟩], none⟩ rfl

/-- C6: when `ipy.run_cell` itself raises with text `e`, the text is
written through the stderr tee — so it is appended to the accumulated
stderr buffer (and streamed if non-empty) — before the single result
message is enqueued, and the result still reports `success=True`. -/
theorem run_cell_invocation_failure_spec (q : List ServerMessage) (run : CellRun) (e : String)
    (hc : run.invocationError = some e) :
    handle_run_cell q run =
      q ++ fragMsgs run.writes ++
        (if e = "" then [] else [ServerMessage.output e true]) ++
        [ServerMessage.runCellResult
          (stdoutText run.writes ++ (stderrText run.writes ++ e))
          (stdoutText run.writes) (stderrText run.writes ++ e) true] := by
  have h := handle_run_cell_eq q run
  rw [hc] at h
  simpa [finalStdout, finalStderr, hc] using h

/-- C6 witness: a run whose engine invocation raises "boom" after one
stderr fragment "w" accumulates "wboom" in stderr and still reports
success. -/
theorem run_cell_invocation_failure_spec_witness :
    handle_run_cell [] ⟨[⟨"w", true⟩], some "boom"⟩ =
      [] ++ fragMsgs [⟨"w", true⟩] ++
        (if ("boom" : String) = "" then [] else [ServerMessage.output "boom" true]) ++
        [ServerMessage.runCellResult
          (stdoutText [⟨"w", true⟩] ++ (stderrText [⟨"w", true⟩] ++ "boom"))
          (stdoutText [⟨"w", true⟩]) (stderrText [⟨"w", true⟩] ++ "boom") true] :=
  run_cell_invocation_failure_spec [] ⟨[⟨"w", true⟩], some "boom"⟩ "boom" rfl

/-- C9: every emitted result message's `output` field is the final stdout
accumulation concatenated with the final stderr accumulation — not the
arrival-order interleaving of the two streams, from which it differs in
general (witnessed by a run whose stderr fragment arrives first). -/
theorem result_output_eq_stdout_append_stderr :
    (∀ (q : List ServerMessage) (run : CellRun), ∃ pre,
      handle_run_cell q run =
        pre ++ [ServerMessage.runCellResult (finalStdout run ++ finalStderr run)
          (finalStdout run) (finalStderr run) true]) ∧
    (∃ fs : List Fragment, stdoutText fs ++ stderrText fs ≠ interleavedText fs) := by
  constructor
  · intro q run
    exact ⟨_, handle_run_cell_eq q run⟩
  · refine ⟨[⟨"e", true⟩, ⟨"o", false⟩], ?_⟩
    decide

/-- C1: a `prompt_model(p)` call with a fresh uuid `id` first registers a
pending request for `id` with an unset event (so `event.wait()` blocks),
then enqueues the ask-request message carrying exactly `id` and `p`; after
any interleaved session activity in which the client delivers `v` for `id`
(and `id` is touched by nothing but that delivery), the event is set (the
waiter unblocks) and the call returns exactly `v`. -/
theorem prompt_model_roundtrip (s : ServicerState) (id p v : String) (as : List SAction)
    (_hfresh : alookup s.pending_prompts id = none)
    (hres : SAction.resolve id v ∈ as)
    (hother : ∀ a ∈ as, touches a id = true → a = SAction.resolve id v) :
    alookup (prompt_model_register s id p).pending_prompts id = some ⟨false, none⟩ ∧
    (prompt_model_register s id p).response_queue =
      s.response_queue ++ [ServerMessage.promptModel p id] ∧
    alookup (srun (prompt_model_register s id p) as).pending_prompts id =
      some ⟨true, some v⟩ ∧
    (prompt_model_consume (srun (prompt_model_register s id p) as) id).2 = some v := by
  have h1 : alookup (prompt_model_register s id p).pending_prompts id = some ⟨false, none⟩ := by
    simp [prompt_model_register, alookup_aset_self]
  have h3 := srun_pending_resolve id v as _ h1 hres hother
  refine ⟨h1, rfl, h3, ?_⟩
  simpa using consume_returns_response _ id ⟨true, some v⟩ h3

/-- C1 witness: on the empty session state, `ask "p"` with id "i" answered
by "v" returns "v". -/
theorem prompt_model_roundtrip_witness :
    alookup (⟨[], []⟩ : ServicerState).pending_prompts "i" = none ∧
    SAction.resolve "i" "v" ∈ [SAction.resolve "i" "v"] ∧
    (∀ a ∈ [SAction.resolve "i" "v"], touches a "i" = true → a = SAction.resolve "i" "v") ∧
    (prompt_model_consume
      (srun (prompt_model_register ⟨[], []⟩ "i" "p") [SAction.resolve "i" "v"]) "i").2 =
      some "v" :=
  ⟨rfl, by simp, by simp,
    (prompt_model_roundtrip ⟨[], []⟩ "i" "p" "v" [SAction.resolve "i" "v"] rfl
      (by simp) (by simp)).2.2.2⟩

/-- C2 counterexample: two answer deliveries for the same id before the
waiter consumes.  The second delivery is *not* a no-op: the waiter
observes "v2", the value of the second delivery, not "v1". -/
theorem duplicate_answer_overwrites :
    (prompt_model_consume
      (handle_prompt_response
        (handle_prompt_response (prompt_model_register ⟨[], []⟩ "i" "p") "i" "v1")
        "i" "v2") "i").2 = some "v2" ∧ ("v2" : String) ≠ "v1" := by
  constructor
  · rfl
  · decide

/-- C2 amended: `_handle_prompt_response` guards only on current presence
in `pending_prompts`, and the entry is removed only when the waiter pops
it.  So each delivery arriving while the request is still pending
overwrites the answer slot — the waiter observes the *last* delivery
before consumption — and only deliveries arriving after the waiter has
consumed (entry removed) are no-ops. -/
theorem duplicate_answer_last_wins (s : ServicerState) (id p v1 v2 w : String)
    (hfresh : alookup s.pending_prompts id = none) :
    (prompt_model_consume (handle_prompt_response (handle_prompt_response
        (prompt_model_register s id p) id v1) id v2) id).2 = some v2 ∧
    handle_prompt_response ((prompt_model_consume (handle_prompt_response
        (handle_prompt_response (prompt_model_register s id p) id v1) id v2) id).1) id w =
      (prompt_model_consume (handle_prompt_response (handle_prompt_response
        (prompt_model_register s id p) id v1) id v2) id).1 := by
  have hpend1 : (prompt_model_register s id p).pending_prompts
      = s.pending_prompts ++ [(id, ⟨false, none⟩)] := by
    simp [prompt_model_register, aset_fresh _ _ _ hfresh]
  have hpend2 : (handle_prompt_response (prompt_model_register s id p) id v1).pending_prompts
      = s.pending_prompts ++ [(id, ⟨true, some v1⟩)] := by
    simp [handle_prompt_response, hpend1, aresolve_append_fresh _ _ _ _ hfresh]
  have hpend3 : (handle_prompt_response (handle_prompt_response
      (prompt_model_register s id p) id v1) id v2).pending_prompts
      = s.pending_prompts ++ [(id, ⟨true, some v2⟩)] := by
    simp only [handle_prompt_response]
    rw [hpend1, aresolve_append_fresh _ _ _ _ hfresh, aresolve_append_fresh _ _ _ _ hfresh]
  have hap : apop (handle_prompt_response (handle_prompt_response
      (prompt_model_register s id p) id v1) id v2).pending_prompts id
      = (some ⟨true, some v2⟩, s.pending_prompts) := by
    rw [hpend3]
    exact apop_append_fresh _ _ _ hfresh
  have hcons := consume_eq_of_apop _ id _ _ hap
  rw [hcons]
  refine ⟨rfl, ?_⟩
  simp [handle_prompt_response, aresolve_of_none _ _ _ hfresh]

/-- C2 amended witness: on the empty state, after two deliveries "v1" then
"v2" for id "i", the waiter observes "v2" and a post-consumption delivery
changes nothing. -/
theorem duplicate_answer_last_wins_witness :
    alookup (⟨[], []⟩ : ServicerState).pending_prompts "i" = none ∧
    ((prompt_model_consume (handle_prompt_response (handle_prompt_response
        (prompt_model_register ⟨[], []⟩ "i" "p") "i" "v1") "i" "v2") "i").2 = some "v2" ∧
      handle_prompt_response ((prompt_model_consume (handle_prompt_response
        (handle_prompt_response (prompt_model_register ⟨[], []⟩ "i" "p") "i" "v1") "i" "v2")
          "i").1) "i" "v3" =
        (prompt_model_consume (handle_prompt_response (handle_prompt_response
          (prompt_model_register ⟨[], []⟩ "i" "p") "i" "v1") "i" "v2") "i").1) :=
  ⟨rfl, duplicate_answer_last_wins ⟨[], []⟩ "i" "p" "v1" "v2" "v3" rfl⟩

/-! ## Correlation-machine invariant lemmas (C7) -/

theorem mkUuid_inj {m n : Nat} (h : mkUuid m = mkUuid n) : m = n := by
  have hl := congrArg String.length h
  simpa [mkUuid, String.length] using hl

theorem pendingKeys_aresolve (l : List (String × PendingEntry)) (k v : String) :
    pendingKeys (aresolve l k v) = pendingKeys l := by
  unfold aresolve
  split
  · simp only [pendingKeys, List.map_map]
    exact List.map_congr_left (fun kv _ => by by_cases h : kv.1 = k <;> simp [h])
  · rfl

theorem pendingKeys_append (l1 l2 : List (String × PendingEntry)) :
    pendingKeys (l1 ++ l2) = pendingKeys l1 ++ pendingKeys l2 := by
  simp [pendingKeys]

theorem alookup_none_of_not_mem (l : List (String × PendingEntry)) (k : String)
    (h : k ∉ pendingKeys l) : alookup l k = none := by
  rw [alookup_eq_none_iff]
  intro kv hkv hk
  exact h (hk ▸ List.mem_map_of_mem Prod.fst hkv)

theorem cstep_inv (s : CState) (a : CAction) (h : CInv s) : CInv (cstep s a) := by
  obtain ⟨hiss, hkeys, hsub, hcnt⟩ := h
  cases a with
  | ask p =>
    have hnotiss : mkUuid s.counter ∉ s.issued := fun hmem =>
      Nat.lt_irrefl _ (hcnt _ hmem)
    have hnotkey : mkUuid s.counter ∉ pendingKeys s.pending_prompts := fun hmem =>
      hnotiss (hsub _ hmem)
    have hnone : alookup s.pending_prompts (mkUuid s.counter) = none :=
      alookup_none_of_not_mem _ _ hnotkey
    simp only [cstep]
    rw [aset_fresh _ _ _ hnone]
    refine ⟨?_, ?_, ?_, ?_⟩
    · simp [List.nodup_append, hiss, hnotiss]
    · rw [pendingKeys_append]
      have hd : ∀ x ∈ pendingKeys s.pending_prompts,
          x ∉ pendingKeys [(mkUuid s.counter, (⟨false, none⟩ : PendingEntry))] := by
        intro x hx hmem
        have hx2 : x = mkUuid s.counter := by simpa [pendingKeys] using hmem
        exact hnotkey (hx2 ▸ hx)
      exact List.Nodup.append hkeys (by simp [pendingKeys]) (List.disjoint_left.mpr hd)
    · intro id hid
      rw [pendingKeys_append] at hid
      rcases List.mem_append.mp hid with h1 | h1
      · exact List.mem_append_left _ (hsub id h1)
      · have h2 : id = mkUuid s.counter := by simpa [pendingKeys] using h1
        simp [h2]
    · intro n hn
      rcases List.mem_append.mp hn with h1 | h1
      · exact Nat.lt_succ_of_lt (hcnt n h1)
      · have h2 : mkUuid n = mkUuid s.counter := by simpa using h1
        rw [mkUuid_inj h2]
        exact Nat.lt_succ_self _
  | answer id v =>
    simp only [cstep]
    refine ⟨hiss, ?_, ?_, hcnt⟩
    · rw [show ({ s with pending_prompts := aresolve s.pending_prompts id v } :
          CState).pending_prompts = aresolve s.pending_prompts id v from rfl,
        pendingKeys_aresolve]
      exact hkeys
    · intro i hi
      rw [show ({ s with pending_prompts := aresolve s.pending_prompts id v } :
          CState).pending_prompts = aresolve s.pending_prompts id v from rfl,
        pendingKeys_aresolve] at hi
      exact hsub i hi
  | consume id =>
    simp only [cstep]
    split
    · split
      · have hkeysub : (pendingKeys (apop s.pending_prompts id).2).Sublist
            (pendingKeys s.pending_prompts) := (apop_sublist _ _).map _
        exact ⟨hiss, hkeysub.nodup hkeys, fun i hi => hsub i (hkeysub.subset hi), hcnt⟩
      · exact ⟨hiss, hkeys, hsub, hcnt⟩
    · exact ⟨hiss, hkeys, hsub, hcnt⟩

theorem crun_inv (as : List CAction) : CInv (crun as) := by
  have hgen : ∀ (bs : List CAction) (s : CState), CInv s → CInv (bs.foldl cstep s) := by
    intro bs
    induction bs with
    | nil => exact fun s h => h
    | cons b bs ih => exact fun s h => ih _ (cstep_inv s b h)
  refine hgen as cinit ⟨by simp [cinit], by simp [cinit, pendingKeys], ?_, ?_⟩
  · intro id hid
    simp [cinit, pendingKeys] at hid
  · intro n hn
    simp [cinit] at hn

/-- C7: the correlation-table invariant over every event sequence of a
session.  With `uuid4` modelled as a supply of pairwise-distinct tokens:
the pending table holds at most one entry per id, the ghost history of
issued ids has no repetition (each ask's id is fresh, never reused by an
earlier or concurrent ask), every pending id was issued by an ask, and
when a blocked waiter whose event is set consumes its answer, the entry is
removed from the table by that very step. -/
theorem correlation_table_invariant (as : List CAction) :
    (pendingKeys (crun as).pending_prompts).Nodup ∧
    (crun as).issued.Nodup ∧
    (∀ id, id ∈ pendingKeys (crun as).pending_prompts → id ∈ (crun as).issued) ∧
    (∀ id e, alookup (crun as).pending_prompts id = some e → e.eventSet = true →
      alookup (cstep (crun as) (CAction.consume id)).pending_prompts id = none) := by
  obtain ⟨hiss, hkeys, hsub, _⟩ := crun_inv as
  refine ⟨hkeys, hiss, hsub, ?_⟩
  intro id e hl hev
  simp only [cstep]
  rw [hl]
  simp only [hev, if_true]
  exact alookup_apop_self _ _ hkeys

/-- C7 witness: one ask answered by "v"; the entry for the issued id is
pending with its event set, and the consume step removes it. -/
theorem correlation_table_invariant_witness :
    alookup (crun [CAction.ask "p", CAction.answer (mkUuid 0) "v"]).pending_prompts
      (mkUuid 0) = some ⟨true, some "v"⟩ ∧
    alookup (cstep (crun [CAction.ask "p", CAction.answer (mkUuid 0) "v"])
      (CAction.consume (mkUuid 0))).pending_prompts (mkUuid 0) = none :=
  ⟨by decide,
    (correlation_table_invariant [CAction.ask "p", CAction.answer (mkUuid 0) "v"]).2.2.2
      (mkUuid 0) ⟨true, some "v"⟩ (by decide) (by decide)⟩

/-- C5: two run-requests overlapping in one session.  Both install their
output redirection (the process-global `sys.stdout` swap of
`redirect_stdout`), then unit 1's code prints "a".  Because the write goes
to the currently installed tee — unit 2's — unit 1's result reports empty
output while unit 2's result reports "a": a fragment produced by one unit
appears in another unit's accumulated buffers, contradicting the claimed
isolation of concurrently running units. -/
theorem concurrent_runs_cross_contamination :
    (mrun [RunEvent.enter 1, RunEvent.enter 2, RunEvent.wr 1 ⟨"a", false⟩,
      RunEvent.exitR 1, RunEvent.finish 1, RunEvent.exitR 2, RunEvent.finish 2]).results =
      [(1, ServerMessage.runCellResult "" "" "" true),
       (2, ServerMessage.runCellResult "a" "a" "" true)] := by
  decide

end Operative
